import Mathlib

/-!
Shallow embedding of the certificate-issuance core of the
`generate-iotc-certificates` repository (the node-forge based module that
exports `createCert`, `generateRoot`, `getLeavesCertificates` and `verify`).

Modelling choices:
* RSA key pairs are abstracted by a numeric identifier: the key pair produced
  by the n-th generation in a run carries identifier n, and a signature made
  with private key k verifies against public key p exactly when their
  identifiers agree (node-forge's `issuer.verify(child)` recomputes the
  signature with the issuer's public key).
* PEM text is abstracted by the inductive `PemBlob`; a file written as the
  template-literal concatenation of two certificate PEMs is modelled as a
  two-element `content` list.
* `pki.privateKeyFromPem` refuses encrypted PEM input (its PEM header type is
  "ENCRYPTED PRIVATE KEY", not "PRIVATE KEY"/"RSA PRIVATE KEY") and throws;
  this is modelled by `Except`.
* JavaScript `Date` values are modelled by `JSDate` (0-based month, as in
  `getMonth`), and `Date.prototype.setFullYear` carries an out-of-range
  Feb 29 over into Mar 1 of the target year, as the ECMAScript
  normalisation does.
* The ambient effects of one run (the current instant, the key-generation
  counter, the `Math.random()` draws for serial numbers) live in `World`,
  threaded through the functions; `fs.writeFile` calls are recorded in order
  in a `writes` trace, including the writes performed before a later throw.
* `fs.mkdir(outFolder, {recursive:true})` is not modelled: no claim below
  concerns directory creation.
-/

namespace IotcCerts

/-- One X.509 subject/issuer attribute as node-forge represents it: an
optional `name`, an optional `shortName`, and a value. -/
structure CertAttr where
  name : Option String
  shortName : Option String
  value : String
  deriving Repr, DecidableEq

/-- A calendar timestamp in the shape JavaScript `Date` exposes: year,
0-based month (0 = January), 1-based day of month, and the time of day in
milliseconds. -/
structure JSDate where
  year : Int
  month : Nat
  day : Nat
  msOfDay : Nat
  deriving Repr, DecidableEq

/-- Gregorian leap-year test, as ECMAScript time arithmetic uses. -/
def isLeapYear (y : Int) : Bool :=
  (y % 4 == 0 && y % 100 != 0) || y % 400 == 0

/-- Days in 0-based month `m` of year `y`. -/
def daysInMonth (y : Int) (m : Nat) : Nat :=
  if m == 1 then (if isLeapYear y then 29 else 28)
  else if m == 3 || m == 5 || m == 8 || m == 10 then 30
  else 31

/-- JavaScript `Date.prototype.setFullYear y`: the year component is replaced
by `y`; if the stored day does not exist in the resulting month (Feb 29
mapped into a non-leap year), the date normalises forward into the next
month, exactly as ECMAScript `MakeDay` does. -/
def setFullYear (d : JSDate) (y : Int) : JSDate :=
  if d.day ≤ daysInMonth y d.month then
    { d with year := y }
  else
    { year := y, month := d.month + 1, day := d.day - daysInMonth y d.month,
      msOfDay := d.msOfDay }

/-- An RSA public key, abstracted by the identifier of the generation event
that produced it. -/
structure PublicKey where
  id : Nat
  deriving Repr, DecidableEq

/-- An RSA private key, abstracted by the identifier of the generation event
that produced it. -/
structure PrivateKey where
  id : Nat
  deriving Repr, DecidableEq

/-- A digital signature: which private key produced it and the message-digest
algorithm requested (`cert.sign(key, md.sha256.create())`). -/
structure Signature where
  signedWith : PrivateKey
  alg : String
  deriving Repr, DecidableEq

/-- The X.509 extensions the module installs (`certificateExtensions` plus
the root-only `basicConstraints`), with the exact flag records of the
source. -/
inductive CertExtension where
  | subjectKeyIdentifier
  | keyUsage (keyCertSign digitalSignature nonRepudiation keyEncipherment
      dataEncipherment : Bool)
  | extKeyUsage (serverAuth clientAuth codeSigning emailProtection
      timeStamping : Bool)
  | nsCertType (client server email objsign sslCA emailCA objCA : Bool)
  | basicConstraints (cA : Bool)
  deriving Repr, DecidableEq

/-- The fixed extension list shared by every issuance
(`certificateExtensions` in the source). -/
def certificateExtensions : List CertExtension :=
  [ .subjectKeyIdentifier,
    .keyUsage true true true true true,
    .extKeyUsage true true true true true,
    .nsCertType true true true true true true true ]

/-- An in-memory `pki.Certificate`: subject and issuer attribute lists,
validity window, keys (the private key rides along only transiently),
serial number, extensions, and the signature once signed. -/
structure Certificate where
  subject : List CertAttr
  issuer : List CertAttr
  validityNotBefore : JSDate
  validityNotAfter : JSDate
  publicKey : Option PublicKey
  privateKey : Option PrivateKey
  serialNumber : String
  extensions : List CertExtension
  signature : Option Signature
  deriving Repr, DecidableEq

/-- `pki.createCertificate()`: a fresh certificate object before any field
is set by the caller (every field below is overwritten or irrelevant before
the object escapes `createCert`). -/
def pkiCreateCertificate : Certificate :=
  { subject := [], issuer := [],
    validityNotBefore := ⟨1970, 0, 1, 0⟩, validityNotAfter := ⟨1970, 0, 1, 0⟩,
    publicKey := none, privateKey := none,
    serialNumber := "00", extensions := [], signature := none }

/-- A PEM text blob: a clear private key (`pki.privateKeyToPem`), a
passphrase-encrypted private key (`pki.encryptRsaPrivateKey`), or a
certificate (`pki.certificateToPem`). -/
inductive PemBlob where
  | privateKeyPem : PrivateKey → PemBlob
  | encryptedKeyPem : PrivateKey → String → PemBlob
  | certPem : Certificate → PemBlob
  deriving Repr, DecidableEq

/-- `pki.privateKeyToPem`. -/
def privateKeyToPem (k : PrivateKey) : PemBlob := .privateKeyPem k

/-- `pki.encryptRsaPrivateKey(key, passphrase)`: the encrypted-PEM stored
form. -/
def encryptRsaPrivateKey (k : PrivateKey) (passphrase : String) : PemBlob :=
  .encryptedKeyPem k passphrase

/-- `pki.certificateToPem`. -/
def certificateToPem (c : Certificate) : PemBlob := .certPem c

/-- `pki.privateKeyFromPem`: succeeds only on a clear private-key PEM; on an
encrypted blob (PEM type "ENCRYPTED PRIVATE KEY") or a certificate it
throws. -/
def privateKeyFromPem : PemBlob → Except String PrivateKey
  | .privateKeyPem k => .ok k
  | .encryptedKeyPem _ _ =>
      .error "Could not convert private key from PEM; PEM header type is not PRIVATE KEY or RSA PRIVATE KEY."
  | .certPem _ =>
      .error "Could not convert private key from PEM; PEM header type is not PRIVATE KEY or RSA PRIVATE KEY."

/-- node-forge `issuer.verify(child)`: re-verify `child`'s signature with
`issuer`'s public key; true exactly when the signing private key pairs with
that public key. -/
def certVerify (issuer child : Certificate) : Bool :=
  match child.signature, issuer.publicKey with
  | some sig, some pk => sig.signedWith.id == pk.id
  | _, _ => false

/-- The `CertificatesOptions` record of the source. -/
structure CertificatesOptions where
  outFolder : String
  passphrase : Option String := none
  yearsTTL : Option Nat := none
  keyBits : Option Nat := none
  attrs : Option (List CertAttr) := none
  deriving Repr, DecidableEq

/-- One recorded `fs.writeFile(path.join(folder, fname), content)` call. -/
structure FsWrite where
  folder : String
  fname : String
  content : List PemBlob
  deriving Repr, DecidableEq

/-- Ambient state of a run: the current instant (both `new Date()` reads in
`createCert` happen at this instant), the counter handing out fresh key-pair
identifiers, and the stream of `Math.floor(Math.random() * 1000)` draws
(`serialSeq n % 1000` is the n-th draw). -/
structure World where
  now : JSDate
  nextKeyId : Nat
  serialIdx : Nat
  serialSeq : Nat → Nat

/-- The world after one `createCert` call: one key pair generated, one
serial-number draw consumed. -/
def nextWorld (w : World) : World :=
  { w with nextKeyId := w.nextKeyId + 1, serialIdx := w.serialIdx + 1 }

/-- The world after `n` consecutive `createCert` calls. -/
def advanceW (w : World) (n : Nat) : World :=
  { w with nextKeyId := w.nextKeyId + n, serialIdx := w.serialIdx + n }

/-- Outcome of a `createCert`-shaped call: the value returned or the error
thrown, the world afterwards, and the file writes performed (in order, also
those that happened before a throw). -/
structure CertResult where
  result : Except String Certificate
  world : World
  writes : List FsWrite

/-- Result of `createCAPrivKey`: the fresh key pair, plus the encrypted
stored form when a passphrase is present. -/
structure GeneratedKey where
  publicKey : PublicKey
  privateKey : PrivateKey
  encryptedKey : Option PemBlob
  deriving Repr, DecidableEq

/-- `createCAPrivKey(options)`: generate a fresh key pair; when
`options.passphrase` is set, also produce the passphrase-encrypted PEM blob
of the private key. -/
def createCAPrivKey (options : CertificatesOptions) (freshId : Nat) :
    GeneratedKey :=
  { publicKey := ⟨freshId⟩, privateKey := ⟨freshId⟩,
    encryptedKey := options.passphrase.map
      (fun p => encryptRsaPrivateKey ⟨freshId⟩ p) }

/-- JavaScript template-literal interpolation of a possibly-undefined
string: `undefined` prints as the literal text "undefined". -/
def jsTemplateOpt : Option String → String
  | some s => s
  | none => "undefined"

/-- `options.attrs?.find((a) => a.name === "commonName")?.value`. -/
def commonNameValue (attrs : Option (List CertAttr)) : Option String :=
  match attrs with
  | none => none
  | some l => (l.find? (fun a => a.name == some "commonName")).map
      (fun a => a.value)

/-- The basename interpolated into the key filename:
`name ? name : options.attrs?.find(...)?.value` inside the template literal
(an empty `name` is falsy, and an undefined result interpolates as
"undefined"). -/
def keyFileBase (name : Option String) (attrs : Option (List CertAttr)) :
    String :=
  match name with
  | some n => if n = "" then jsTemplateOpt (commonNameValue attrs) else n
  | none => jsTemplateOpt (commonNameValue attrs)

/-- `createCert(options, issuer?, name?)`:
1. generate a key pair (`createCAPrivKey`);
2. write `<base>.key.pem` with the encrypted blob if present, else the clear
   private-key PEM;
3. build the certificate: subject and issuer from `options.attrs` when
   present, `notBefore`/`notAfter` both read the clock, public key from the
   fresh pair, `privateKey := pki.privateKeyFromPem(keyTowrite)` (this
   throws when `keyTowrite` is the encrypted blob), `notAfter.setFullYear
   (notBefore year + 1)`, a random serial below 1000, the fixed extensions
   plus `basicConstraints{cA:true}` only when no issuer is supplied;
4. with an issuer: issuer attributes become the issuer's subject, the
   certificate is signed with the issuer's private key and SHA-256, and the
   freshly signed certificate is re-verified against the issuer, throwing
   "Something went wrong when creating leaf certificate." when that fails;
   without an issuer: self-signed with the fresh private key and SHA-256. -/
def createCert (options : CertificatesOptions) (issuer : Option Certificate)
    (name : Option String) (w : World) : CertResult :=
  let key := createCAPrivKey options w.nextKeyId
  let keyTowrite := key.encryptedKey.getD (privateKeyToPem key.privateKey)
  let keyWrite : FsWrite :=
    { folder := options.outFolder,
      fname := keyFileBase name options.attrs ++ ".key.pem",
      content := [keyTowrite] }
  let w' := nextWorld w
  match privateKeyFromPem keyTowrite with
  | .error e => { result := .error e, world := w', writes := [keyWrite] }
  | .ok privFromPem =>
    let outcert : Certificate :=
      { subject := match options.attrs with
          | some attrs => attrs
          | none => pkiCreateCertificate.subject,
        issuer := match options.attrs with
          | some attrs => attrs
          | none => pkiCreateCertificate.issuer,
        validityNotBefore := w.now,
        validityNotAfter := setFullYear w.now (w.now.year + 1),
        publicKey := some key.publicKey,
        privateKey := some privFromPem,
        serialNumber := toString (w.serialSeq w.serialIdx % 1000),
        extensions := certificateExtensions ++
          (match issuer with
            | some _ => []
            | none => [CertExtension.basicConstraints true]),
        signature := none }
    match issuer with
    | some iss =>
      match iss.privateKey with
      | none =>
          { result := .error "TypeError: issuer private key is undefined",
            world := w', writes := [keyWrite] }
      | some issuerKey =>
        let signed :=
          { outcert with
            issuer := iss.subject,
            signature := some { signedWith := issuerKey, alg := "sha256" } }
        if certVerify iss signed then
          { result := .ok signed, world := w', writes := [keyWrite] }
        else
          { result := .error
              "Something went wrong when creating leaf certificate.",
            world := w', writes := [keyWrite] }
    | none =>
      { result := .ok
          { outcert with
            signature := some { signedWith := key.privateKey,
                                alg := "sha256" } },
        world := w', writes := [keyWrite] }

/-- Outcome of `generateRoot`. -/
structure RootResult where
  result : Except String Certificate
  world : World
  writes : List FsWrite

/-- `generateRoot(options)`: create the output folder (not modelled), issue
the root via `createCert(options)`, and write
`<commonName-or-undefined>.cert.pem` with the root certificate PEM; errors
are logged and rethrown unchanged. -/
def generateRoot (options : CertificatesOptions) (w : World) : RootResult :=
  let r := createCert options none none w
  match r.result with
  | .error e => { result := .error e, world := r.world, writes := r.writes }
  | .ok caCert =>
    { result := .ok caCert,
      world := r.world,
      writes := r.writes ++
        [{ folder := options.outFolder,
           fname := jsTemplateOpt (commonNameValue options.attrs)
             ++ ".cert.pem",
           content := [certificateToPem caCert] }] }

/-- The commonName test used by the attribute rewrite in
`getLeavesCertificates` and `verify`:
`a.name === "commonName" || a.shortName === "CN"`. -/
def isCNAttr (a : CertAttr) : Bool :=
  a.name == some "commonName" || a.shortName == some "CN"

/-- The per-leaf attribute rewrite of `getLeavesCertificates` and `verify`:
every entry whose `name` is "commonName" or whose `shortName` is "CN" is
replaced by `{ name: "commonName", value: newVal }` (no `shortName`); every
other entry is copied unchanged. -/
def substCN (newVal : String) (attrs : List CertAttr) : List CertAttr :=
  attrs.map fun a =>
    if isCNAttr a then
      { name := some "commonName", shortName := none, value := newVal }
    else a

/-- The per-iteration leaf name: `prefix + (count > 1 ? i : "")` with
1-based `i`. -/
def lname (pfx : String) (count i : Nat) : String :=
  pfx ++ (if count > 1 then toString i else "")

/-- Outcome of `getLeavesCertificates`: the returned list or the error
thrown, the options record as the caller observes it afterwards (the
function assigns `options.attrs` in place when it was absent), the world,
and the write trace. -/
structure LeavesResult where
  result : Except String (List Certificate)
  options : CertificatesOptions
  world : World
  writes : List FsWrite

/-- The body of the `for (let i = 1; i <= count; i++)` loop of
`getLeavesCertificates`, iterated over the remaining index list: for each
`i`, clone the options with the commonName substituted by the leaf name,
issue the leaf against `rootCA` via `createCert`, then write
`<name>.pem` as leaf PEM immediately followed by the root PEM; a throw
aborts the remaining iterations but keeps the writes already performed. -/
def leavesGo (options : CertificatesOptions) (count : Nat) (pfx : String)
    (rootCA : Certificate) :
    List Nat → World → Except String (List Certificate) × World × List FsWrite
  | [], w => (.ok [], w, [])
  | i :: rest, w =>
    let name := lname pfx count i
    let leafOptions : CertificatesOptions :=
      { options with attrs := options.attrs.map (substCN name) }
    let r := createCert leafOptions (some rootCA) none w
    match r.result with
    | .error e => (.error e, r.world, r.writes)
    | .ok leaf =>
      let chainWrite : FsWrite :=
        { folder := options.outFolder,
          fname := name ++ ".pem",
          content := [certificateToPem leaf, certificateToPem rootCA] }
      match leavesGo options count pfx rootCA rest r.world with
      | (.error e, w2, ws) =>
          (.error e, w2, r.writes ++ chainWrite :: ws)
      | (.ok certs, w2, ws) =>
          (.ok (leaf :: certs), w2, r.writes ++ chainWrite :: ws)

/-- The in-place attrs defaulting both `getLeavesCertificates` and `verify`
perform first: `if (!options.attrs) { options.attrs =
rootCA.subject.attributes; }` (the caller's record is mutated; the modelled
functions return the record they mutated). -/
def optionsWithAttrs (options : CertificatesOptions)
    (rootCA : Certificate) : CertificatesOptions :=
  if options.attrs.isNone then
    { options with attrs := some rootCA.subject }
  else options

/-- `getLeavesCertificates(options, count, prefix, rootCA)`: when
`options.attrs` is absent it is assigned the root's subject attributes (an
in-place mutation the caller observes), then the loop issues leaves for
`i = 1 .. count`. -/
def getLeavesCertificates (options : CertificatesOptions) (count : Nat)
    (pfx : String) (rootCA : Certificate) (w : World) : LeavesResult :=
  let options1 := optionsWithAttrs options rootCA
  let r := leavesGo options1 count pfx rootCA
    ((List.range count).map (fun j => j + 1)) w
  { result := r.1, options := options1, world := r.2.1, writes := r.2.2 }

/-- Outcome of `verify`: as `LeavesResult`, for the single verification
certificate. -/
structure VerifyResult where
  result : Except String Certificate
  options : CertificatesOptions
  world : World
  writes : List FsWrite

/-- `verify(options, verificationCode, rootCA)`: create the output folder
(not modelled); when `options.attrs` is absent assign the root's subject
attributes in place; clone the options substituting the commonName by the
verification code; issue the certificate via
`createCert(verificationOptions, rootCA, "verification")`; finally write
`verified.pem` as the certificate PEM immediately followed by the root
PEM. -/
def verify (options : CertificatesOptions) (verificationCode : String)
    (rootCA : Certificate) (w : World) : VerifyResult :=
  let options1 := optionsWithAttrs options rootCA
  let verificationOptions : CertificatesOptions :=
    { options1 with
      attrs := options1.attrs.map (substCN verificationCode) }
  let r := createCert verificationOptions (some rootCA)
    (some "verification") w
  match r.result with
  | .error e =>
      { result := .error e, options := options1, world := r.world,
        writes := r.writes }
  | .ok validated =>
      { result := .ok validated, options := options1, world := r.world,
        writes := r.writes ++
          [{ folder := options1.outFolder,
             fname := "verified.pem",
             content := [certificateToPem validated,
                         certificateToPem rootCA] }] }

/-- Recognizer for a two-certificate chain-bundle write (`<name>.pem`,
`verified.pem`): the file content is a certificate PEM immediately followed
by a certificate PEM. -/
def isChainWrite (fw : FsWrite) : Bool :=
  match fw.content with
  | [PemBlob.certPem _, PemBlob.certPem _] => true
  | _ => false

/-- Recognizer for a private-key write (`*.key.pem`): the file content is a
single clear or encrypted private-key PEM. -/
def isKeyWrite (fw : FsWrite) : Bool :=
  match fw.content with
  | [PemBlob.privateKeyPem _] => true
  | [PemBlob.encryptedKeyPem _ _] => true
  | _ => false

/-- The stored form of the private key written by `createCert` at world `w`
(`key.encryptedKey ?? pki.privateKeyToPem(key.privateKey)`). -/
def keyTowriteOf (options : CertificatesOptions) (w : World) : PemBlob :=
  ((createCAPrivKey options w.nextKeyId).encryptedKey).getD
    (privateKeyToPem ⟨w.nextKeyId⟩)

/-- The private-key file write `createCert` performs (the stored form is
the clear PEM here: used under a no-passphrase hypothesis). -/
def keyWriteAt (options : CertificatesOptions) (nm : Option String)
    (w : World) : FsWrite :=
  { folder := options.outFolder,
    fname := keyFileBase nm options.attrs ++ ".key.pem",
    content := [PemBlob.privateKeyPem ⟨w.nextKeyId⟩] }

/-- Closed form of the certificate `createCert` returns on the no-issuer
(root) path at world `w` when no passphrase is present: subject and issuer
both from `options.attrs` (empty when absent), validity from the clock,
the fresh key pair, the fixed extensions plus the CA `basicConstraints`,
self-signed with SHA-256. -/
def mkSelfCert (options : CertificatesOptions) (w : World) : Certificate :=
  { subject := match options.attrs with
      | some attrs => attrs
      | none => [],
    issuer := match options.attrs with
      | some attrs => attrs
      | none => [],
    validityNotBefore := w.now,
    validityNotAfter := setFullYear w.now (w.now.year + 1),
    publicKey := some ⟨w.nextKeyId⟩,
    privateKey := some ⟨w.nextKeyId⟩,
    serialNumber := toString (w.serialSeq w.serialIdx % 1000),
    extensions := certificateExtensions ++
      [CertExtension.basicConstraints true],
    signature := some ⟨⟨w.nextKeyId⟩, "sha256"⟩ }

/-- Closed form of the certificate `createCert` returns on the issuer
(leaf) path at world `w` when no passphrase is present and the issuer's
private key `ik` pairs with its public key: subject from `options.attrs`,
issuer attributes from the issuer's subject, the fixed extensions only (no
`basicConstraints`), signed by `ik` with SHA-256. -/
def mkLeafCert (options : CertificatesOptions) (iss : Certificate)
    (ik : PrivateKey) (w : World) : Certificate :=
  { subject := match options.attrs with
      | some attrs => attrs
      | none => [],
    issuer := iss.subject,
    validityNotBefore := w.now,
    validityNotAfter := setFullYear w.now (w.now.year + 1),
    publicKey := some ⟨w.nextKeyId⟩,
    privateKey := some ⟨w.nextKeyId⟩,
    serialNumber := toString (w.serialSeq w.serialIdx % 1000),
    extensions := certificateExtensions,
    signature := some ⟨ik, "sha256"⟩ }

/-- The cloned per-leaf options built inside the loop of
`getLeavesCertificates` for 1-based index `i`. -/
def leafOpts (options : CertificatesOptions) (count : Nat) (pfx : String)
    (i : Nat) : CertificatesOptions :=
  { options with
    attrs := options.attrs.map (substCN (lname pfx count i)) }

/-- The list of leaf certificates the loop of `getLeavesCertificates`
produces over the remaining index list, in closed form (no passphrase,
matching issuer key pair `ik`). -/
def leavesCertsSpec (options : CertificatesOptions) (count : Nat)
    (pfx : String) (R : Certificate) (ik : PrivateKey) :
    List Nat → World → List Certificate
  | [], _ => []
  | i :: rest, w =>
      mkLeafCert (leafOpts options count pfx i) R ik w ::
        leavesCertsSpec options count pfx R ik rest (nextWorld w)

/-- The write trace the loop of `getLeavesCertificates` produces over the
remaining index list, in closed form: for each index, the leaf's private
key file, then the leaf-plus-root chain file. -/
def leavesWritesSpec (options : CertificatesOptions) (count : Nat)
    (pfx : String) (R : Certificate) (ik : PrivateKey) :
    List Nat → World → List FsWrite
  | [], _ => []
  | i :: rest, w =>
      { folder := options.outFolder,
        fname := keyFileBase none (leafOpts options count pfx i).attrs
          ++ ".key.pem",
        content := [PemBlob.privateKeyPem ⟨w.nextKeyId⟩] } ::
      { folder := options.outFolder,
        fname := lname pfx count i ++ ".pem",
        content := [certificateToPem
            (mkLeafCert (leafOpts options count pfx i) R ik w),
          certificateToPem R] } ::
      leavesWritesSpec options count pfx R ik rest (nextWorld w)

/-- The private-key file write `createCert` performs, in the general form
(the content is the encrypted blob when a passphrase is present, the clear
PEM otherwise). -/
def keyWriteGeneric (o : CertificatesOptions) (nm : Option String)
    (w : World) : FsWrite :=
  { folder := o.outFolder,
    fname := keyFileBase nm o.attrs ++ ".key.pem",
    content := [keyTowriteOf o w] }

/-- The chain-bundle write for batch leaf index `i` with leaf certificate
`c`: the file `<lname>.pem` holding the leaf PEM immediately followed by
the root PEM. -/
def chainWriteAt (options : CertificatesOptions) (count : Nat)
    (pfx : String) (R : Certificate) (i : Nat) (c : Certificate) : FsWrite :=
  { folder := options.outFolder,
    fname := lname pfx count i ++ ".pem",
    content := [certificateToPem c, certificateToPem R] }

/-- The fixed-name chain write of `verify`: `verified.pem` holding the
verification certificate PEM immediately followed by the root PEM. -/
def verifiedWrite (options : CertificatesOptions) (v R : Certificate) :
    FsWrite :=
  { folder := options.outFolder,
    fname := "verified.pem",
    content := [certificateToPem v, certificateToPem R] }

/-- Extract the certificate from a successful `createCert` outcome (the
default is irrelevant: it is only used under a success hypothesis). -/
def resultCert (r : CertResult) : Certificate :=
  match r.result with
  | .ok c => c
  | .error _ => pkiCreateCertificate

/-- Boolean success test on an outcome. -/
def isOkB {α : Type} : Except String α → Bool
  | .ok _ => true
  | .error _ => false

/-- A concrete subject attribute list (the CLI defaults). -/
def attrs0 : List CertAttr :=
  [ ⟨some "commonName", none, "AzureIoTCentral"⟩,
    ⟨none, some "ST", "Washington"⟩,
    ⟨some "countryName", none, "US"⟩ ]

/-- A concrete world: June 15, 2025, fresh counters, constant random
stream. -/
def w0 : World :=
  { now := ⟨2025, 5, 15, 3600000⟩, nextKeyId := 0, serialIdx := 0,
    serialSeq := fun _ => 7 }

/-- Concrete options carrying `attrs0`, no passphrase. -/
def opts0 : CertificatesOptions := { outFolder := "out", attrs := some attrs0 }

/-- The concrete root certificate issued from `opts0` at `w0`. -/
def root0 : Certificate := resultCert (createCert opts0 none none w0)

/-- The world after the root issuance at `w0`. -/
def w1 : World := nextWorld w0

/-- A concrete leaf issued against `root0`. -/
def leaf0 : Certificate := resultCert (createCert opts0 (some root0) none w1)

/-- A concrete attribute list with no commonName entry. -/
def attrsNoCN : List CertAttr :=
  [ ⟨none, some "ST", "Washington"⟩, ⟨some "countryName", none, "US"⟩ ]

/-- Options whose subject attributes lack a commonName entry. -/
def optsNoCN : CertificatesOptions :=
  { outFolder := "out", attrs := some attrsNoCN }

/-- Options with no `attrs` field at all. -/
def optsBare : CertificatesOptions := { outFolder := "out" }

/-- A concrete world whose instant is Feb 29, 2024 (a leap day), noon. -/
def wFeb : World :=
  { now := ⟨2024, 1, 29, 43200000⟩, nextKeyId := 0, serialIdx := 0,
    serialSeq := fun _ => 7 }

/-- A concrete issuer certificate whose attached private key does not pair
with its public key (identifier 5 against 9): re-verification of anything
it signs fails. -/
def rootBadKey : Certificate :=
  { root0 with privateKey := some ⟨5⟩, publicKey := some ⟨9⟩ }

/-- `createCert` without an issuer and without a passphrase: closed form of
the whole outcome. -/
theorem createCert_self_eq (options : CertificatesOptions)
    (nm : Option String) (w : World) (h1 : options.passphrase = none) :
    createCert options none nm w =
      { result := .ok (mkSelfCert options w),
        world := nextWorld w,
        writes := [keyWriteAt options nm w] } := by
  simp only [createCert, createCAPrivKey, h1, Option.map_none', Option.getD,
    privateKeyToPem, privateKeyFromPem, mkSelfCert, pkiCreateCertificate,
    keyWriteAt]

/-- `createCert` with an issuer whose attached private key pairs with its
public key, and no passphrase: closed form of the whole outcome. -/
theorem createCert_leaf_eq (options : CertificatesOptions)
    (iss : Certificate) (nm : Option String) (w : World)
    (ik : PrivateKey) (pk : PublicKey)
    (h1 : options.passphrase = none) (h2 : iss.privateKey = some ik)
    (h3 : iss.publicKey = some pk) (h4 : ik.id = pk.id) :
    createCert options (some iss) nm w =
      { result := .ok (mkLeafCert options iss ik w),
        world := nextWorld w,
        writes := [keyWriteAt options nm w] } := by
  simp only [createCert, createCAPrivKey, h1, h2, Option.map_none',
    Option.getD, privateKeyToPem, privateKeyFromPem, mkLeafCert,
    pkiCreateCertificate, certVerify, h3, h4, beq_self_eq_true, if_true,
    List.append_nil, keyWriteAt]

/-- `createCert` with an issuer whose attached private key does NOT pair
with its public key, and no passphrase: the re-verification fails, the call
throws the signing-integrity error, and the only write performed is the
leaf private-key file. -/
theorem createCert_leaf_badkey_eq (options : CertificatesOptions)
    (iss : Certificate) (nm : Option String) (w : World)
    (ik : PrivateKey) (pk : PublicKey)
    (h1 : options.passphrase = none) (h2 : iss.privateKey = some ik)
    (h3 : iss.publicKey = some pk) (h4 : ik.id ≠ pk.id) :
    createCert options (some iss) nm w =
      { result := .error "Something went wrong when creating leaf certificate.",
        world := nextWorld w,
        writes := [keyWriteAt options nm w] } := by
  simp only [createCert, createCAPrivKey, h1, h2, Option.map_none',
    Option.getD, privateKeyToPem, privateKeyFromPem, certVerify, h3,
    keyWriteAt]
  rw [if_neg]
  simp [h4]

/-- The year set by `setFullYear` is the requested one, also when the day
rolls over. -/
theorem setFullYear_year (d : JSDate) (y : Int) : (setFullYear d y).year = y := by
  unfold setFullYear
  split <;> rfl

/-- C1 counterexample: with a concrete issuer whose attached private key
does not pair with its public key, `createCert` does fail with the
signing-integrity error, but the leaf's private-key file has already been
written — so the operation does NOT abort before any file is written for
that leaf. -/
theorem createCert_reverify_failure_counterexample :
    (createCert opts0 (some rootBadKey) none w1).result =
      .error "Something went wrong when creating leaf certificate." ∧
    (createCert opts0 (some rootBadKey) none w1).writes.map
      (fun fw => fw.fname) = ["AzureIoTCentral.key.pem"] := by
  constructor
  · rfl
  · rfl

/-- C1 (amended): if re-verification of the freshly signed leaf against the
issuer fails, `createCert` fails with the signing-integrity error and
aborts before the leaf's chain file is written — but the leaf's
private-key file has already been written, and it is the only file written
for that leaf. -/
theorem createCert_reverify_failure (options : CertificatesOptions)
    (iss : Certificate) (nm : Option String) (w : World)
    (ik : PrivateKey) (pk : PublicKey)
    (h1 : options.passphrase = none) (h2 : iss.privateKey = some ik)
    (h3 : iss.publicKey = some pk) (h4 : ik.id ≠ pk.id) :
    (createCert options (some iss) nm w).result =
      .error "Something went wrong when creating leaf certificate." ∧
    (createCert options (some iss) nm w).writes = [keyWriteAt options nm w] ∧
    ((createCert options (some iss) nm w).writes.filter isChainWrite) = [] := by
  rw [createCert_leaf_badkey_eq options iss nm w ik pk h1 h2 h3 h4]
  refine ⟨rfl, rfl, ?_⟩
  simp [keyWriteAt, isChainWrite]

/-- Witness for C1 at a concrete mismatched issuer. -/
theorem createCert_reverify_failure_witness :
    (createCert opts0 (some rootBadKey) none w1).result =
      .error "Something went wrong when creating leaf certificate." ∧
    (createCert opts0 (some rootBadKey) none w1).writes =
      [keyWriteAt opts0 none w1] ∧
    ((createCert opts0 (some rootBadKey) none w1).writes.filter
      isChainWrite) = [] :=
  createCert_reverify_failure opts0 rootBadKey none w1 ⟨5⟩ ⟨9⟩ rfl rfl rfl
    (by decide)

/-- C2: every leaf `createCert` successfully returns against an issuer `R`
has issuer attributes equal to `R`'s subject attributes, carries a SHA-256
signature made with `R`'s attached private key, re-verifies against `R`,
and does not carry the `basicConstraints` extension. -/
theorem createCert_leaf_props (options : CertificatesOptions)
    (R : Certificate) (nm : Option String) (w : World) (c : Certificate)
    (h : (createCert options (some R) nm w).result = .ok c) :
    c.issuer = R.subject ∧
    (∃ ik, R.privateKey = some ik ∧
      c.signature = some { signedWith := ik, alg := "sha256" }) ∧
    certVerify R c = true ∧
    (∀ b, CertExtension.basicConstraints b ∉ c.extensions) := by
  simp only [createCert] at h
  split at h
  · simp at h
  · split at h
    · simp at h
    · rename_i privFromPem heq issuerKey hkey
      split at h
      · rename_i hv
        simp only [Except.ok.injEq] at h
        subst h
        refine ⟨rfl, ⟨issuerKey, hkey, rfl⟩, hv, ?_⟩
        intro b
        simp [certificateExtensions]
      · simp at h

/-- Witness for C2 at the concrete leaf issued from `root0`. -/
theorem createCert_leaf_props_witness :
    leaf0.issuer = root0.subject ∧
    (∃ ik, root0.privateKey = some ik ∧
      leaf0.signature = some { signedWith := ik, alg := "sha256" }) ∧
    certVerify root0 leaf0 = true ∧
    (∀ b, CertExtension.basicConstraints b ∉ leaf0.extensions) :=
  createCert_leaf_props opts0 root0 none w1 leaf0 rfl

/-- C3: root issuance (`createCert` without an issuer, no passphrase) from
a non-empty attribute set returns a certificate whose issuer attributes
equal its subject attributes, which carries `basicConstraints{cA:true}` in
addition to the four fixed extensions, and which is self-signed with the
freshly generated private key so that it verifies against its own public
key. -/
theorem createCert_root_props (options : CertificatesOptions)
    (attrs : List CertAttr) (w : World)
    (h1 : options.passphrase = none) (h2 : options.attrs = some attrs)
    (h3 : attrs ≠ []) :
    ∃ c, (createCert options none none w).result = .ok c ∧
      c.subject = attrs ∧ c.issuer = attrs ∧
      c.extensions = certificateExtensions ++
        [CertExtension.basicConstraints true] ∧
      c.publicKey = some ⟨w.nextKeyId⟩ ∧
      c.privateKey = some ⟨w.nextKeyId⟩ ∧
      c.signature = some ⟨⟨w.nextKeyId⟩, "sha256"⟩ ∧
      certVerify c c = true := by
  refine ⟨mkSelfCert options w, ?_, ?_, ?_, ?_, ?_, ?_, ?_, ?_⟩ <;>
    first
    | rw [createCert_self_eq options none w h1]
    | simp [mkSelfCert, h2, certVerify]

/-- Witness for C3 at the concrete options `opts0`. -/
theorem createCert_root_props_witness :
    ∃ c, (createCert opts0 none none w0).result = .ok c ∧
      c.subject = attrs0 ∧ c.issuer = attrs0 ∧
      c.extensions = certificateExtensions ++
        [CertExtension.basicConstraints true] ∧
      c.publicKey = some ⟨w0.nextKeyId⟩ ∧
      c.privateKey = some ⟨w0.nextKeyId⟩ ∧
      c.signature = some ⟨⟨w0.nextKeyId⟩, "sha256"⟩ ∧
      certVerify c c = true :=
  createCert_root_props opts0 attrs0 w0 rfl rfl (by decide)

/-- C4 counterexample: issuing on Feb 29, 2024 moves `notAfter` to
Mar 1, 2025 — the month and day components are NOT unchanged from the
issuing instant (month 1 day 29 becomes month 2 day 1, 0-based months),
while the year component is still incremented by one. -/
theorem createCert_validity_counterexample :
    (createCert opts0 none none wFeb).result.map
      (fun c => (c.validityNotBefore, c.validityNotAfter)) =
    .ok (⟨2024, 1, 29, 43200000⟩, ⟨2025, 2, 1, 43200000⟩) := by
  rfl

/-- C4 (amended): for every issuance at instant T, `notBefore` equals T and
`notAfter`'s year equals T's year plus one (computed by setting the year
component); the month, day and time-of-day are unchanged from T whenever
T's day exists in the incremented year — on Feb 29 of a leap year the date
rolls into Mar 1 instead. -/
theorem createCert_validity_window (options : CertificatesOptions)
    (issuer : Option Certificate) (nm : Option String) (w : World)
    (c : Certificate)
    (h : (createCert options issuer nm w).result = .ok c) :
    c.validityNotBefore = w.now ∧
    c.validityNotAfter.year = w.now.year + 1 ∧
    (w.now.day ≤ daysInMonth (w.now.year + 1) w.now.month →
      c.validityNotAfter =
        ⟨w.now.year + 1, w.now.month, w.now.day, w.now.msOfDay⟩) := by
  have hc : c.validityNotBefore = w.now ∧
      c.validityNotAfter = setFullYear w.now (w.now.year + 1) := by
    simp only [createCert] at h
    split at h
    · simp at h
    · split at h
      · split at h
        · simp at h
        · split at h
          · simp only [Except.ok.injEq] at h
            subst h
            exact ⟨rfl, rfl⟩
          · simp at h
      · simp only [Except.ok.injEq] at h
        subst h
        exact ⟨rfl, rfl⟩
  refine ⟨hc.1, ?_, ?_⟩
  · rw [hc.2, setFullYear_year]
  · intro hday
    rw [hc.2]
    unfold setFullYear
    rw [if_pos hday]

/-- Witness for C4 at the concrete instant of `w0` (June 15, 2025). -/
theorem createCert_validity_window_witness :
    root0.validityNotBefore = w0.now ∧
    root0.validityNotAfter.year = w0.now.year + 1 ∧
    (w0.now.day ≤ daysInMonth (w0.now.year + 1) w0.now.month →
      root0.validityNotAfter =
        ⟨w0.now.year + 1, w0.now.month, w0.now.day, w0.now.msOfDay⟩) :=
  createCert_validity_window opts0 none none w0 root0 rfl

/-- C7: with a passphrase present the stored private-key form is the
passphrase-encrypted PEM blob, but issuance does not succeed: the
`pki.privateKeyFromPem(keyTowrite)` step parses that encrypted blob and
throws, so `createCert` with a passphrase fails where the claim says it
signs exactly as without one. -/
theorem createCert_passphrase_throws :
    (createCert { opts0 with passphrase := some "pw" } none none w0).writes.map
      (fun fw => fw.content) = [[PemBlob.encryptedKeyPem ⟨0⟩ "pw"]] ∧
    (createCert { opts0 with passphrase := some "pw" } none none w0).result =
      .error "Could not convert private key from PEM; PEM header type is not PRIVATE KEY or RSA PRIVATE KEY." ∧
    isOkB (createCert opts0 none none w0).result = true := by
  refine ⟨rfl, rfl, rfl⟩

/-- C8 counterexample: with subject attributes lacking a commonName entry
and no explicit name, `generateRoot` completes both writes without any
error — the computed filenames interpolate JavaScript `undefined` as the
literal text "undefined" instead of surfacing a naming error. -/
theorem generateRoot_missing_cn_counterexample :
    isOkB (generateRoot optsNoCN w0).result = true ∧
    (generateRoot optsNoCN w0).writes.map (fun fw => fw.fname) =
      ["undefined.key.pem", "undefined.cert.pem"] := by
  exact ⟨rfl, rfl⟩

/-- C8 (amended): when the subject attribute set lacks a commonName entry
and no explicit name is supplied, computing the output filename raises no
error: the write completes, with the missing value interpolated as the
literal string "undefined" (`undefined.key.pem`, and `undefined.cert.pem`
for the root certificate). -/
theorem generateRoot_missing_cn (options : CertificatesOptions)
    (attrs : List CertAttr) (w : World)
    (h1 : options.passphrase = none) (h2 : options.attrs = some attrs)
    (h3 : attrs.find? (fun a => a.name == some "commonName") = none) :
    isOkB (generateRoot options w).result = true ∧
    (generateRoot options w).writes.map (fun fw => fw.fname) =
      ["undefined.key.pem", "undefined.cert.pem"] := by
  unfold generateRoot
  rw [createCert_self_eq options none w h1]
  simp [isOkB, keyWriteAt, keyFileBase, commonNameValue, jsTemplateOpt, h2, h3]

/-- Witness for C8 at the concrete CN-less options. -/
theorem generateRoot_missing_cn_witness :
    isOkB (generateRoot optsNoCN w0).result = true ∧
    (generateRoot optsNoCN w0).writes.map (fun fw => fw.fname) =
      ["undefined.key.pem", "undefined.cert.pem"] :=
  generateRoot_missing_cn optsNoCN attrsNoCN w0 rfl rfl (by decide)

/-- C10: when the caller's options record has no `attrs` field, both
`getLeavesCertificates` and `verify` assign the root's subject attributes
to it in place, so the caller observes the modified record afterwards;
when `attrs` is present the record is left unchanged. -/
theorem leaves_verify_options_mutation (o1 o2 : CertificatesOptions)
    (a : List CertAttr) (count : Nat) (pfx : String) (R : Certificate)
    (w : World) (code : String)
    (h1 : o1.attrs = none) (h2 : o2.attrs = some a) :
    (getLeavesCertificates o1 count pfx R w).options =
      { o1 with attrs := some R.subject } ∧
    (verify o1 code R w).options = { o1 with attrs := some R.subject } ∧
    (getLeavesCertificates o2 count pfx R w).options = o2 ∧
    (verify o2 code R w).options = o2 := by
  refine ⟨?_, ?_, ?_, ?_⟩ <;>
    simp only [getLeavesCertificates, verify, optionsWithAttrs, h1, h2,
      Option.isNone_none, Option.isNone_some, if_true, if_false,
      Bool.false_eq_true] <;>
    split <;> rfl

/-- Witness for C10 at concrete options with and without `attrs`. -/
theorem leaves_verify_options_mutation_witness :
    (getLeavesCertificates optsBare 2 "dev" root0 w1).options =
      { optsBare with attrs := some root0.subject } ∧
    (verify optsBare "C1" root0 w1).options =
      { optsBare with attrs := some root0.subject } ∧
    (getLeavesCertificates opts0 2 "dev" root0 w1).options = opts0 ∧
    (verify opts0 "C1" root0 w1).options = opts0 :=
  leaves_verify_options_mutation optsBare opts0 attrs0 2 "dev"
    root0 w1 "C1" rfl rfl

/-- Zero steps leave the world unchanged. -/
theorem advanceW_zero (w : World) : advanceW w 0 = w := by
  simp [advanceW]

/-- One step then `n` steps is `n + 1` steps. -/
theorem advanceW_next (w : World) (n : Nat) :
    advanceW (nextWorld w) n = advanceW w (n + 1) := by
  simp only [advanceW, nextWorld]
  simp [Nat.add_assoc, Nat.add_comm 1 n]

/-- Closed form of the whole loop of `getLeavesCertificates` over any
remaining index list, when no passphrase is present and the root's attached
private key pairs with its public key: it succeeds, producing the certs and
writes of the spec functions and advancing the world once per index. -/
theorem leavesGo_eq (options : CertificatesOptions) (count : Nat)
    (pfx : String) (R : Certificate) (ik : PrivateKey) (pk : PublicKey)
    (h1 : options.passphrase = none) (h2 : R.privateKey = some ik)
    (h3 : R.publicKey = some pk) (h4 : ik.id = pk.id) :
    ∀ (L : List Nat) (w : World),
    leavesGo options count pfx R L w =
      (.ok (leavesCertsSpec options count pfx R ik L w),
       advanceW w L.length,
       leavesWritesSpec options count pfx R ik L w) := by
  intro L
  induction L with
  | nil =>
    intro w
    simp [leavesGo, leavesCertsSpec, leavesWritesSpec, advanceW_zero]
  | cons i rest ih =>
    intro w
    rw [show leavesGo options count pfx R (i :: rest) w =
      (let name := lname pfx count i
       let leafOptions : CertificatesOptions :=
         { options with attrs := options.attrs.map (substCN name) }
       let r := createCert leafOptions (some R) none w
       match r.result with
       | .error e => (.error e, r.world, r.writes)
       | .ok leaf =>
         let chainWrite : FsWrite :=
           { folder := options.outFolder,
             fname := name ++ ".pem",
             content := [certificateToPem leaf, certificateToPem R] }
         match leavesGo options count pfx R rest r.world with
         | (.error e, w2, ws) =>
             (.error e, w2, r.writes ++ chainWrite :: ws)
         | (.ok certs, w2, ws) =>
             (.ok (leaf :: certs), w2, r.writes ++ chainWrite :: ws)) from rfl]
    have hcc := createCert_leaf_eq
      { options with attrs := options.attrs.map (substCN (lname pfx count i)) }
      R none w ik pk h1 h2 h3 h4
    simp only [hcc, ih (nextWorld w), leavesCertsSpec, leavesWritesSpec,
      List.length_cons, advanceW_next, List.cons_append, List.nil_append,
      keyWriteAt, leafOpts, mkLeafCert]

/-- The loop produces one certificate per index. -/
theorem leavesCertsSpec_length (options : CertificatesOptions) (count : Nat)
    (pfx : String) (R : Certificate) (ik : PrivateKey) :
    ∀ (L : List Nat) (w : World),
    (leavesCertsSpec options count pfx R ik L w).length = L.length := by
  intro L
  induction L with
  | nil => intro w; rfl
  | cons i rest ih =>
    intro w
    simp [leavesCertsSpec, ih (nextWorld w)]

/-- The chain-bundle writes of the loop, filtered out of its trace, pair
each index with its leaf certificate in order. -/
theorem leavesWritesSpec_filter_chain (options : CertificatesOptions)
    (count : Nat) (pfx : String) (R : Certificate) (ik : PrivateKey) :
    ∀ (L : List Nat) (w : World),
    (leavesWritesSpec options count pfx R ik L w).filter isChainWrite =
      List.zipWith (chainWriteAt options count pfx R) L
        (leavesCertsSpec options count pfx R ik L w) := by
  intro L
  induction L with
  | nil => intro w; rfl
  | cons i rest ih =>
    intro w
    simp only [leavesWritesSpec, leavesCertsSpec, List.zipWith,
      List.filter, isChainWrite, chainWriteAt, certificateToPem,
      ih (nextWorld w)]

/-- The subjects of the loop's certificates: the effective attributes with
the commonName substituted by each leaf name. -/
theorem leavesCertsSpec_map_subject (options : CertificatesOptions)
    (count : Nat) (pfx : String) (R : Certificate) (ik : PrivateKey)
    (attrs : List CertAttr) (hA : options.attrs = some attrs) :
    ∀ (L : List Nat) (w : World),
    (leavesCertsSpec options count pfx R ik L w).map (fun c => c.subject) =
      L.map (fun i => substCN (lname pfx count i) attrs) := by
  intro L
  induction L with
  | nil => intro w; rfl
  | cons i rest ih =>
    intro w
    simp [leavesCertsSpec, mkLeafCert, leafOpts, hA, ih (nextWorld w)]

/-- In a list whose commonName entries were just substituted, the first
entry found by `a.name === "commonName"` is the substituted entry, provided
the original list had a commonName-equivalent entry at all. -/
theorem substCN_find_name (nm : String) :
    ∀ (l : List CertAttr), l.any isCNAttr = true →
    (substCN nm l).find? (fun a => a.name == some "commonName") =
      some ⟨some "commonName", none, nm⟩ := by
  intro l
  induction l with
  | nil => intro h; simp at h
  | cons a rest ih =>
    intro h
    by_cases ha : isCNAttr a = true
    · simp [substCN, List.find?, ha]
    · have hname : (a.name == some "commonName") = false := by
        simp only [isCNAttr, Bool.or_eq_true] at ha
        push_neg at ha
        simp only [Bool.not_eq_true] at ha
        exact ha.1
      have hrest : rest.any isCNAttr = true := by
        simp only [List.any_cons, Bool.or_eq_true] at h
        rcases h with h | h
        · exact absurd h ha
        · exact h
      simp only [substCN, List.map, List.find?] at ih ⊢
      rw [if_neg (by simp [ha])]
      simp only [hname]
      exact ih hrest

/-- Same, for the first entry found by the commonName-or-CN test, returning
its value. -/
theorem substCN_find_CN (nm : String) :
    ∀ (l : List CertAttr), l.any isCNAttr = true →
    ((substCN nm l).find? isCNAttr).map (fun a => a.value) = some nm := by
  intro l
  induction l with
  | nil => intro h; simp at h
  | cons a rest ih =>
    intro h
    by_cases ha : isCNAttr a = true
    · simp only [substCN, List.map, List.find?]
      rw [if_pos ha]
      simp [isCNAttr]
    · have hrest : rest.any isCNAttr = true := by
        simp only [List.any_cons, Bool.or_eq_true] at h
        rcases h with h | h
        · exact absurd h ha
        · exact h
      simp only [substCN, List.map, List.find?] at ih ⊢
      rw [if_neg (by simp [ha])]
      simp only [Bool.not_eq_true] at ha
      simp only [ha]
      exact ih hrest

/-- After substitution the key-file basename computed by `createCert` (no
explicit name) is exactly the substituted leaf name, provided a
commonName-equivalent entry exists. -/
theorem keyFileBase_subst (nm : String) (l : List CertAttr)
    (h : l.any isCNAttr = true) :
    keyFileBase none (some (substCN nm l)) = nm := by
  simp [keyFileBase, jsTemplateOpt, commonNameValue, substCN_find_name nm l h]

/-- The private-key writes of the loop, filtered out of its trace, are the
files `<lname i>.key.pem` in the output folder, one per index in order. -/
theorem leavesWritesSpec_filter_key (options : CertificatesOptions)
    (count : Nat) (pfx : String) (R : Certificate) (ik : PrivateKey)
    (attrs : List CertAttr) (hA : options.attrs = some attrs)
    (hCN : attrs.any isCNAttr = true) :
    ∀ (L : List Nat) (w : World),
    ((leavesWritesSpec options count pfx R ik L w).filter isKeyWrite).map
        (fun fw => (fw.folder, fw.fname)) =
      L.map (fun i => (options.outFolder, lname pfx count i ++ ".key.pem")) := by
  intro L
  induction L with
  | nil => intro w; rfl
  | cons i rest ih =>
    intro w
    simp only [leavesWritesSpec, List.filter, isKeyWrite, List.map]
    simp [leafOpts, hA, keyFileBase_subst (lname pfx count i) attrs hCN,
      ih (nextWorld w)]

/-- The attrs defaulting step does not touch the passphrase. -/
theorem optionsWithAttrs_passphrase (options : CertificatesOptions)
    (R : Certificate) :
    (optionsWithAttrs options R).passphrase = options.passphrase := by
  unfold optionsWithAttrs
  split <;> rfl

/-- The attrs defaulting step does not touch the output folder. -/
theorem optionsWithAttrs_outFolder (options : CertificatesOptions)
    (R : Certificate) :
    (optionsWithAttrs options R).outFolder = options.outFolder := by
  unfold optionsWithAttrs
  split <;> rfl

/-- After the defaulting step the attrs are present: the caller's when
supplied, else the root's subject. -/
theorem optionsWithAttrs_attrs (options : CertificatesOptions)
    (R : Certificate) :
    (optionsWithAttrs options R).attrs =
      some (options.attrs.getD R.subject) := by
  unfold optionsWithAttrs
  cases h : options.attrs <;> simp [h]

/-- Closed form of the whole `getLeavesCertificates` call under the success
hypotheses (no passphrase, root key pair matching). -/
theorem getLeavesCertificates_eq (options : CertificatesOptions)
    (count : Nat) (pfx : String) (R : Certificate) (ik : PrivateKey)
    (pk : PublicKey) (w : World)
    (h1 : options.passphrase = none) (h2 : R.privateKey = some ik)
    (h3 : R.publicKey = some pk) (h4 : ik.id = pk.id) :
    getLeavesCertificates options count pfx R w =
      { result := .ok (leavesCertsSpec (optionsWithAttrs options R) count
          pfx R ik ((List.range count).map (fun j => j + 1)) w),
        options := optionsWithAttrs options R,
        world := advanceW w count,
        writes := leavesWritesSpec (optionsWithAttrs options R) count
          pfx R ik ((List.range count).map (fun j => j + 1)) w } := by
  have h1a : (optionsWithAttrs options R).passphrase = none :=
    (optionsWithAttrs_passphrase options R).trans h1
  simp only [getLeavesCertificates,
    leavesGo_eq (optionsWithAttrs options R) count pfx R ik pk h1a h2 h3 h4,
    List.length_map, List.length_range]

/-- The chain-bundle write shape only depends on the caller options through
the output folder, which the defaulting step preserves. -/
theorem chainWriteAt_optionsWithAttrs (options : CertificatesOptions)
    (count : Nat) (pfx : String) (R : Certificate) :
    chainWriteAt (optionsWithAttrs options R) count pfx R =
      chainWriteAt options count pfx R := by
  funext i c
  simp [chainWriteAt, optionsWithAttrs_outFolder]

/-- C5: batch leaf issuance under a root with a matching key pair and no
passphrase succeeds and produces, among its writes and in order of the
1-based index, exactly the chain files `lname pfx count i ++ ".pem"`
(`<prefix>.pem` when count = 1, `<prefix><i>.pem` when count > 1), each
holding the i-th leaf PEM immediately followed by the root PEM; each leaf's
subject is the effective attribute set (the caller's, else the root's
subject) with only the commonName entry replaced by the leaf name. -/
theorem getLeavesCertificates_batch (options : CertificatesOptions)
    (count : Nat) (pfx : String) (R : Certificate) (ik : PrivateKey)
    (pk : PublicKey) (w : World)
    (h1 : options.passphrase = none) (h2 : R.privateKey = some ik)
    (h3 : R.publicKey = some pk) (h4 : ik.id = pk.id) (h5 : 1 ≤ count) :
    ∃ certs : List Certificate,
      (getLeavesCertificates options count pfx R w).result = .ok certs ∧
      certs.length = count ∧
      ((getLeavesCertificates options count pfx R w).writes.filter
          isChainWrite) =
        List.zipWith (chainWriteAt options count pfx R)
          ((List.range count).map (fun j => j + 1)) certs ∧
      certs.map (fun c => c.subject) =
        (List.range count).map (fun j =>
          substCN (lname pfx count (j + 1))
            (options.attrs.getD R.subject)) := by
  have heq := getLeavesCertificates_eq options count pfx R ik pk w h1 h2 h3 h4
  refine ⟨leavesCertsSpec (optionsWithAttrs options R) count pfx R ik
    ((List.range count).map (fun j => j + 1)) w, ?_, ?_, ?_, ?_⟩
  · rw [heq]
  · rw [leavesCertsSpec_length]
    simp
  · simp only [heq]
    rw [leavesWritesSpec_filter_chain, chainWriteAt_optionsWithAttrs]
  · rw [leavesCertsSpec_map_subject (optionsWithAttrs options R) count pfx R
      ik (options.attrs.getD R.subject) (optionsWithAttrs_attrs options R)]
    rw [List.map_map]
    simp [Function.comp]

/-- Witness for C5 at a concrete batch of three leaves from `root0`. -/
theorem getLeavesCertificates_batch_witness :
    ∃ certs : List Certificate,
      (getLeavesCertificates opts0 3 "device" root0 w1).result = .ok certs ∧
      certs.length = 3 ∧
      ((getLeavesCertificates opts0 3 "device" root0 w1).writes.filter
          isChainWrite) =
        List.zipWith (chainWriteAt opts0 3 "device" root0)
          ((List.range 3).map (fun j => j + 1)) certs ∧
      certs.map (fun c => c.subject) =
        (List.range 3).map (fun j =>
          substCN (lname "device" 3 (j + 1))
            (opts0.attrs.getD root0.subject)) :=
  getLeavesCertificates_batch opts0 3 "device" root0 ⟨0⟩ ⟨0⟩ w1 rfl rfl rfl
    rfl (by decide)

/-- C6: verification issuance under a root with a matching key pair and no
passphrase succeeds with a certificate whose first commonName-equivalent
subject entry has the verification code as its value, whose issuer
attributes equal the root's subject attributes, and whose chain bundle is
written to the fixed filename `verified.pem` whatever the code and the
attributes are. -/
theorem verify_props (options : CertificatesOptions) (code : String)
    (R : Certificate) (ik : PrivateKey) (pk : PublicKey) (w : World)
    (h1 : options.passphrase = none) (h2 : R.privateKey = some ik)
    (h3 : R.publicKey = some pk) (h4 : ik.id = pk.id)
    (h5 : (options.attrs.getD R.subject).any isCNAttr = true) :
    ∃ v, (verify options code R w).result = .ok v ∧
      (v.subject.find? isCNAttr).map (fun a => a.value) = some code ∧
      v.issuer = R.subject ∧
      (verify options code R w).writes.filter isChainWrite =
        [verifiedWrite options v R] := by
  have h1a : (optionsWithAttrs options R).passphrase = none :=
    (optionsWithAttrs_passphrase options R).trans h1
  have hcc := createCert_leaf_eq
    { optionsWithAttrs options R with
      attrs := (optionsWithAttrs options R).attrs.map (substCN code) }
    R (some "verification") w ik pk h1a h2 h3 h4
  refine ⟨mkLeafCert
    { optionsWithAttrs options R with
      attrs := (optionsWithAttrs options R).attrs.map (substCN code) }
    R ik w, ?_, ?_, ?_, ?_⟩
  · simp only [verify, hcc]
  · simp only [mkLeafCert, optionsWithAttrs_attrs, Option.map_some']
    exact substCN_find_CN code (options.attrs.getD R.subject) h5
  · rfl
  · simp only [verify, hcc]
    simp [keyWriteAt, isChainWrite, verifiedWrite, certificateToPem,
      optionsWithAttrs_outFolder]

/-- Witness for C6 at a concrete code and `root0`. -/
theorem verify_props_witness :
    ∃ v, (verify opts0 "CODE123" root0 w1).result = .ok v ∧
      (v.subject.find? isCNAttr).map (fun a => a.value) = some "CODE123" ∧
      v.issuer = root0.subject ∧
      (verify opts0 "CODE123" root0 w1).writes.filter isChainWrite =
        [verifiedWrite opts0 v root0] :=
  verify_props opts0 "CODE123" root0 ⟨0⟩ ⟨0⟩ w1 rfl rfl rfl rfl (by decide)

/-- C9: every `createCert` invocation performs exactly one write of its own
— the private-key file, before the certificate is even built (it is the
head of the trace, present also when the call later throws); on a batch
run the private-key files are `lname pfx count i ++ ".key.pem"`, one per
1-based index in order, beside the chain files; and verification issuance
writes `verification.key.pem` before `verified.pem`. -/
theorem createCert_key_file_writes (o2 : CertificatesOptions)
    (iss2 : Option Certificate) (nm2 : Option String) (w2 : World)
    (options : CertificatesOptions) (count : Nat) (pfx : String)
    (R : Certificate) (ik : PrivateKey) (pk : PublicKey) (w : World)
    (code : String)
    (h1 : options.passphrase = none) (h2 : R.privateKey = some ik)
    (h3 : R.publicKey = some pk) (h4 : ik.id = pk.id)
    (hCN : (options.attrs.getD R.subject).any isCNAttr = true) :
    (createCert o2 iss2 nm2 w2).writes = [keyWriteGeneric o2 nm2 w2] ∧
    ((getLeavesCertificates options count pfx R w).writes.filter
        isKeyWrite).map (fun fw => (fw.folder, fw.fname)) =
      (List.range count).map (fun j =>
        (options.outFolder, lname pfx count (j + 1) ++ ".key.pem")) ∧
    (verify options code R w).writes.map (fun fw => fw.fname) =
      ["verification.key.pem", "verified.pem"] := by
  refine ⟨?_, ?_, ?_⟩
  · simp only [createCert]
    repeat' split
    all_goals rfl
  · simp only [getLeavesCertificates_eq options count pfx R ik pk w h1 h2
      h3 h4]
    rw [leavesWritesSpec_filter_key (optionsWithAttrs options R) count pfx R
      ik (options.attrs.getD R.subject) (optionsWithAttrs_attrs options R)
      hCN]
    rw [List.map_map]
    simp [Function.comp, optionsWithAttrs_outFolder]
  · have h1a : (optionsWithAttrs options R).passphrase = none :=
      (optionsWithAttrs_passphrase options R).trans h1
    have hcc := createCert_leaf_eq
      { optionsWithAttrs options R with
        attrs := (optionsWithAttrs options R).attrs.map (substCN code) }
      R (some "verification") w ik pk h1a h2 h3 h4
    simp only [verify, hcc]
    simp [keyWriteAt, keyFileBase]

/-- Witness for C9 at concrete calls: a bare `createCert`, a batch of two,
and a verification issuance. -/
theorem createCert_key_file_writes_witness :
    (createCert opts0 none none w0).writes =
      [keyWriteGeneric opts0 none w0] ∧
    ((getLeavesCertificates opts0 2 "dev" root0 w1).writes.filter
        isKeyWrite).map (fun fw => (fw.folder, fw.fname)) =
      (List.range 2).map (fun j =>
        (opts0.outFolder, lname "dev" 2 (j + 1) ++ ".key.pem")) ∧
    (verify opts0 "CODE123" root0 w1).writes.map (fun fw => fw.fname) =
      ["verification.key.pem", "verified.pem"] :=
  createCert_key_file_writes opts0 none none w0 opts0 2 "dev" root0 ⟨0⟩ ⟨0⟩
    w1 "CODE123" rfl rfl rfl rfl (by decide)

end IotcCerts
